import Mathlib

/-!
Shallow embedding of the text-distortion renderer in src/script.js.

Coordinates, scores and widths are modelled as rationals.  JavaScript's
`Math.round` is modelled by `jround` (floor of x + 1/2, which is exactly
what `Math.round` computes, including on negative halves).  The ambient
`Math.random()` generator is modelled as a value stream `rs : ℕ → ℚ`
together with a cursor index that every call advances, exactly as the
single global generator behaves across successive calls.
-/

namespace Uncensortype

/-- `MAX_EXTRA_POINTS` constant from script.js line 9. -/
def MAX_EXTRA_POINTS : ℕ := 10

/-- `MAX_BLUR_PX` constant from script.js line 12. -/
def MAX_BLUR_PX : ℚ := 4

/-- JavaScript `Math.round`: round half toward positive infinity. -/
def jround (q : ℚ) : ℤ := ⌊q + 1 / 2⌋

/-- `lerp` from script.js lines 209-211. -/
def lerp (a b t : ℚ) : ℚ := a + (b - a) * t

/-- `scoreToDistortion` from script.js lines 195-198. -/
def scoreToDistortion (score : ℚ) : ℚ := 1 - max 0 (min 1 score)

/-- An RGB colour triple of integers. -/
structure Color where
  r : ℤ
  g : ℤ
  b : ℤ
deriving DecidableEq, Repr

/-- `scoreToColor` from script.js lines 201-207. -/
def scoreToColor (score : ℚ) : Color :=
  let s := max 0 (min 1 score)
  { r := jround (lerp 220 20 s)
    g := jround (lerp 40 210 s)
    b := jround (lerp 40 120 s) }

/-- An opentype.js path command (`M`/`L`/`Q`/`C`/`Z`). -/
inductive PathCmd where
  | M (x y : ℚ)
  | L (x y : ℚ)
  | Q (x1 y1 x y : ℚ)
  | C (x1 y1 x2 y2 x y : ℚ)
  | Z
deriving DecidableEq, Repr

/-- One jitter offset: `(Math.random() - 0.5) * jitter` where
`jitter = distortionLevel * jscale` (script.js lines 255-257, 278-280). -/
def jitterOf (level jscale r : ℚ) : ℚ := (r - 1 / 2) * (level * jscale)

/-- The synthesized interior points inserted for one subdivided segment
(script.js lines 250-264 and 273-287): for `i = 1..extraPoints`,
`t = i/(extraPoints+1)`, base point linearly interpolated between the
cursor and the target, plus a jitter pair drawn from the stream at the
current cursor `k`. -/
def subdivide (level prevX prevY targetX targetY jscale : ℚ)
    (extraPoints : ℕ) (rs : ℕ → ℚ) (k : ℕ) : List PathCmd :=
  (List.range extraPoints).map fun (i : ℕ) =>
    let t : ℚ := ((i : ℚ) + 1) / ((extraPoints : ℚ) + 1)
    let baseX := prevX + (targetX - prevX) * t
    let baseY := prevY + (targetY - prevY) * t
    PathCmd.L (baseX + jitterOf level jscale (rs (k + 2 * i)))
      (baseY + jitterOf level jscale (rs (k + 2 * i + 1)))

/-- The command walk of `distortPath` (script.js lines 237-295), with the
random cursor threaded through; returns the new command list and the
final cursor position. -/
def distortGo (level : ℚ) (extraPoints : ℕ) (rs : ℕ → ℚ) :
    List PathCmd → ℚ → ℚ → ℕ → List PathCmd × ℕ
  | [], _, _, k => ([], k)
  | PathCmd.M x y :: rest, _, _, k =>
    let r := distortGo level extraPoints rs rest x y k
    (PathCmd.M x y :: r.1, r.2)
  | PathCmd.L x y :: rest, prevX, prevY, k =>
    let r := distortGo level extraPoints rs rest x y (k + 2 * extraPoints)
    (subdivide level prevX prevY x y 6 extraPoints rs k ++ PathCmd.L x y :: r.1, r.2)
  | PathCmd.Q x1 y1 x y :: rest, prevX, prevY, k =>
    let r := distortGo level extraPoints rs rest x y (k + 2 * extraPoints)
    (subdivide level prevX prevY x y 10 extraPoints rs k ++ PathCmd.Q x1 y1 x y :: r.1, r.2)
  | PathCmd.C x1 y1 x2 y2 x y :: rest, prevX, prevY, k =>
    let r := distortGo level extraPoints rs rest x y (k + 2 * extraPoints)
    (subdivide level prevX prevY x y 10 extraPoints rs k ++ PathCmd.C x1 y1 x2 y2 x y :: r.1, r.2)
  | PathCmd.Z :: rest, prevX, prevY, k =>
    let r := distortGo level extraPoints rs rest prevX prevY k
    (PathCmd.Z :: r.1, r.2)

/-- `distortPath` (script.js lines 231-298) started at stream cursor `k`:
early return for `distortionLevel <= 0` (line 232) and for
`extraPoints = Math.round(distortionLevel * MAX_EXTRA_POINTS) <= 0`
(lines 234-235), otherwise the walk starting from cursor `(0,0)`. -/
def distortPathK (cmds : List PathCmd) (level : ℚ) (rs : ℕ → ℚ) (k : ℕ) :
    List PathCmd × ℕ :=
  if level ≤ 0 then (cmds, k)
  else
    let extraPoints := jround (level * (MAX_EXTRA_POINTS : ℚ))
    if extraPoints ≤ 0 then (cmds, k)
    else distortGo level extraPoints.toNat rs cmds 0 0 k

/-- `distortPath` on a fresh stream (cursor at 0). -/
def distortPath (cmds : List PathCmd) (level : ℚ) (rs : ℕ → ℚ) : List PathCmd :=
  (distortPathK cmds level rs 0).1

/-- `Math.round(level * MAX_EXTRA_POINTS)` as a natural number. -/
def extraPointsOf (level : ℚ) : ℕ := (jround (level * (MAX_EXTRA_POINTS : ℚ))).toNat

/-- Number of `L`/`Q`/`C` commands, i.e. the subdivided segments. -/
def countLQC : List PathCmd → ℕ
  | [] => 0
  | PathCmd.L _ _ :: rest => countLQC rest + 1
  | PathCmd.Q _ _ _ _ :: rest => countLQC rest + 1
  | PathCmd.C _ _ _ _ _ _ :: rest => countLQC rest + 1
  | _ :: rest => countLQC rest

/-- Whitespace test for the `\s` character class on the characters the
program actually meets (space, tab, newline, carriage return). -/
def isWS (c : Char) : Bool :=
  c == ' ' || c == '\t' || c == '\n' || c == '\r'

/-- `String.prototype.trim`: drop whitespace from both ends. -/
def trimWS (l : List Char) : List Char :=
  ((l.dropWhile isWS).reverse.dropWhile isWS).reverse

/-- `text.split(/\s+/)` (script.js line 320): split at maximal whitespace
runs; a leading or trailing run contributes an empty piece, exactly as the
JavaScript regex split does. -/
def splitWS : List Char → List (List Char)
  | [] => [[]]
  | c :: rest =>
    if isWS c then
      match rest with
      | [] => [] :: splitWS rest
      | c2 :: _ => if isWS c2 then splitWS rest else [] :: splitWS rest
    else
      match splitWS rest with
      | [] => [[c]]
      | w :: ws => (c :: w) :: ws

/-- `measureLineWidth` (script.js lines 306-313): fold over the characters
adding `advanceWidth * scale + letterSpacing` for every character. -/
def measureLineWidth (str : List Char) (adv : Char → ℚ) (scale letterSpacing : ℚ) : ℚ :=
  str.foldl (fun width ch => width + (adv ch * scale + letterSpacing)) 0

/-- The word loop of `layoutTextIntoLines` (script.js lines 324-337):
greedy accumulation with commit when the test line overflows and the
current line is non-empty; the trailing non-empty line is committed. -/
def layoutLoop (maxWidth : ℚ) (adv : Char → ℚ) (scale ls : ℚ) :
    List (List Char) → List Char → List (List Char)
  | [], currentLine => if currentLine = [] then [] else [currentLine]
  | word :: rest, currentLine =>
    let testLine := if currentLine = [] then word else currentLine ++ ' ' :: word
    let testWidth := measureLineWidth testLine adv scale ls
    if maxWidth < testWidth ∧ currentLine ≠ [] then
      currentLine :: layoutLoop maxWidth adv scale ls rest word
    else
      layoutLoop maxWidth adv scale ls rest testLine

/-- `layoutTextIntoLines` (script.js lines 319-338). -/
def layoutTextIntoLines (text : List Char) (maxWidth : ℚ) (adv : Char → ℚ)
    (scale ls : ℚ) : List (List Char) :=
  layoutLoop maxWidth adv scale ls (splitWS text) []

/-- One `{year, score}` record of a country's data array. -/
structure Entry where
  year : ℤ
  score : ℚ
deriving DecidableEq, Repr

/-- The loop body of `getCurrentScore` (script.js lines 221-225): replace
`best` by `d` whenever `d.year <= year && d.year >= best.year`. -/
def bestStep (year : ℤ) (best d : Entry) : Entry :=
  if d.year ≤ year ∧ best.year ≤ d.year then d else best

/-- `getCurrentScore` (script.js lines 213-227): `null` for an absent or
empty country array, the exact match if `find` succeeds, otherwise the
fold starting from `arr[0]` over the whole array with `bestStep`. -/
def getCurrentScore (data : List (String × List Entry)) (country : String)
    (year : ℤ) : Option ℚ :=
  match data.lookup country with
  | none => none
  | some arr =>
    match arr with
    | [] => none
    | a0 :: rest =>
      match (a0 :: rest).find? (fun d => d.year == year) with
      | some exact => some exact.score
      | none =>
        some ((a0 :: rest).foldl (bestStep year) a0).score

/-- The glyph-metrics provider (opentype.js font object): `unitsPerEm`,
per-character advance width, and a positioned outline per character. -/
structure FontM where
  unitsPerEm : ℚ
  advanceWidth : Char → ℚ
  getPath : Char → ℚ → ℚ → ℚ → List PathCmd

/-- A drawing-surface instruction emitted by the orchestration. -/
inductive Instr where
  | setBackground (c : Color)
  | setBlur (px : ℚ)
  | clearRect
  | fillOutline (cmds : List PathCmd)
deriving DecidableEq, Repr

/-- Recognizer for `fillOutline` instructions. -/
def Instr.isFillOutline : Instr → Bool
  | Instr.fillOutline _ => true
  | _ => false

/-- Recognizer for `setBackground` instructions. -/
def Instr.isSetBackground : Instr → Bool
  | Instr.setBackground _ => true
  | _ => false

/-- Recognizer for `setBlur` instructions. -/
def Instr.isSetBlur : Instr → Bool
  | Instr.setBlur _ => true
  | _ => false

/-- Inputs read by `drawOutput`: UI state, CSV data, the possibly absent
font, and the ambient random stream. `fontSizeIn`, `letterSpacingIn`,
`lineHeightIn` model `parseInt` results (`none` = NaN). -/
structure DrawInputs where
  textRaw : List Char
  country : String
  year : ℤ
  data : List (String × List Entry)
  fontOpt : Option FontM
  fontSizeIn : Option ℤ
  letterSpacingIn : Option ℤ
  lineHeightIn : Option ℤ
  canvasWidth : ℚ
  canvasHeight : ℚ
  rs : ℕ → ℚ

/-- The per-character loop of a line (script.js lines 409-417): fill each
distorted glyph outline and advance the pen, threading the random cursor. -/
def drawLineChars (font : FontM) (level fontSize scale ls y : ℚ) (rs : ℕ → ℚ) :
    List Char → ℚ → ℕ → List Instr × ℕ
  | [], _, k => ([], k)
  | ch :: restChars, x, k =>
    let gp := font.getPath ch x y fontSize
    let d := distortPathK gp level rs k
    let r := drawLineChars font level fontSize scale ls y rs restChars
      (x + font.advanceWidth ch * scale + ls) d.2
    (Instr.fillOutline d.1 :: r.1, r.2)

/-- The per-line loop (script.js lines 405-420): centre each line
horizontally, draw its characters, advance the baseline. -/
def drawLines (font : FontM) (level fontSize scale ls lineHeightFactor canvasWidth : ℚ)
    (rs : ℕ → ℚ) : List (List Char) → ℚ → ℕ → List Instr × ℕ
  | [], _, k => ([], k)
  | line :: restLines, y, k =>
    let lineWidth := measureLineWidth line font.advanceWidth scale ls
    let r1 := drawLineChars font level fontSize scale ls y rs line
      ((canvasWidth - lineWidth) / 2) k
    let r2 := drawLines font level fontSize scale ls lineHeightFactor canvasWidth rs
      restLines (y + fontSize * lineHeightFactor) r1.2
    (r1.1 ++ r2.1, r2.2)

/-- `drawOutput` (script.js lines 355-423) as the instruction sequence it
emits: nothing when no country is selected; background colour and blur
always otherwise; and, only when the font is present, a clear followed by
one filled distorted outline per character of the laid-out lines. -/
def drawOutput (inp : DrawInputs) : List Instr :=
  let trimmed := trimWS inp.textRaw
  let text := if trimmed = [] then ['f', 'o', 'n', 't'] else trimmed
  if inp.country = "" then []
  else
    let rawScore := getCurrentScore inp.data inp.country inp.year
    let score := rawScore.getD (1 / 2)
    let clampedScore := max 0 (min 1 score)
    let distortionLevel := scoreToDistortion clampedScore
    let color := scoreToColor clampedScore
    let blurPx := distortionLevel * MAX_BLUR_PX
    let pre := [Instr.setBackground color, Instr.setBlur blurPx]
    match inp.fontOpt with
    | none => pre
    | some font =>
      let fontSize : ℚ := match inp.fontSizeIn with
        | none => 120
        | some v => if v = 0 then 120 else (v : ℚ)
      let letterSpacing : ℚ := ((inp.letterSpacingIn.getD 0 : ℤ) : ℚ)
      let lineHeightFactor : ℚ := match inp.lineHeightIn with
        | none => 6 / 5
        | some v => if v = 0 then 6 / 5 else (v : ℚ) / 100
      let unitsPerEm := if font.unitsPerEm = 0 then 1000 else font.unitsPerEm
      let scale := fontSize / unitsPerEm
      let maxLineWidth := inp.canvasWidth * (8 / 10)
      let lines := layoutTextIntoLines text maxLineWidth font.advanceWidth scale letterSpacing
      let totalHeight := (lines.length : ℚ) * fontSize * lineHeightFactor
      let y0 := (inp.canvasHeight - totalHeight) / 2 + fontSize
      pre ++ Instr.clearRect ::
        (drawLines font distortionLevel fontSize scale letterSpacing lineHeightFactor
          inp.canvasWidth inp.rs lines y0 0).1

/-! ## Theorems -/

theorem jround_mono {a b : ℚ} (h : a ≤ b) : jround a ≤ jround b :=
  Int.floor_le_floor (by linarith)

theorem jround_eq (q : ℚ) (z : ℤ) (h1 : (z : ℚ) ≤ q + 1 / 2) (h2 : q + 1 / 2 < z + 1) :
    jround q = z := by
  unfold jround
  rw [Int.floor_eq_iff]
  exact ⟨h1, h2⟩

theorem scoreToColor_r (s : ℚ) :
    (scoreToColor s).r = jround (lerp 220 20 (max 0 (min 1 s))) := rfl

theorem scoreToColor_g (s : ℚ) :
    (scoreToColor s).g = jround (lerp 40 210 (max 0 (min 1 s))) := rfl

theorem scoreToColor_b (s : ℚ) :
    (scoreToColor s).b = jround (lerp 40 120 (max 0 (min 1 s))) := rfl

/-- C5: `scoreToDistortion` equals `1 − clamp(score,0,1)`, is total and
monotonically non-increasing, and takes the values 1, 0, 1, 0 at the
scores 0, 1, −0.5, 1.5 respectively. -/
theorem scoreToDistortion_spec (s s1 s2 : ℚ) (h : s1 ≤ s2) :
    scoreToDistortion s = 1 - max 0 (min 1 s) ∧
    scoreToDistortion s2 ≤ scoreToDistortion s1 ∧
    scoreToDistortion 0 = 1 ∧ scoreToDistortion 1 = 0 ∧
    scoreToDistortion (-(1 / 2)) = 1 ∧ scoreToDistortion (3 / 2) = 0 := by
  refine ⟨rfl, ?_,
    by norm_num [scoreToDistortion, max_def, min_def],
    by norm_num [scoreToDistortion, max_def, min_def],
    by norm_num [scoreToDistortion, max_def, min_def],
    by norm_num [scoreToDistortion, max_def, min_def]⟩
  have hm : max 0 (min 1 s1) ≤ max 0 (min 1 s2) :=
    max_le_max le_rfl (min_le_min le_rfl h)
  simp only [scoreToDistortion]
  linarith

/-- Witness for C5 at the concrete scores 1/4, 0 and 1. -/
theorem scoreToDistortion_spec_witness :
    scoreToDistortion (1 / 4) = 1 - max 0 (min 1 (1 / 4)) ∧
    scoreToDistortion 1 ≤ scoreToDistortion 0 ∧
    scoreToDistortion 0 = 1 ∧ scoreToDistortion 1 = 0 ∧
    scoreToDistortion (-(1 / 2)) = 1 ∧ scoreToDistortion (3 / 2) = 0 :=
  scoreToDistortion_spec (1 / 4) 0 1 (by norm_num)

theorem scoreToColor_anchor0 : scoreToColor 0 = ⟨220, 40, 40⟩ := by
  have hc : max 0 (min 1 (0 : ℚ)) = 0 := by norm_num [max_def, min_def]
  simp only [scoreToColor, hc, Color.mk.injEq]
  refine ⟨?_, ?_, ?_⟩
  · rw [show lerp 220 20 (0 : ℚ) = 220 by norm_num [lerp]]
    exact jround_eq _ _ (by norm_num) (by norm_num)
  · rw [show lerp 40 210 (0 : ℚ) = 40 by norm_num [lerp]]
    exact jround_eq _ _ (by norm_num) (by norm_num)
  · rw [show lerp 40 120 (0 : ℚ) = 40 by norm_num [lerp]]
    exact jround_eq _ _ (by norm_num) (by norm_num)

theorem scoreToColor_anchor1 : scoreToColor 1 = ⟨20, 210, 120⟩ := by
  have hc : max 0 (min 1 (1 : ℚ)) = 1 := by norm_num [max_def, min_def]
  simp only [scoreToColor, hc, Color.mk.injEq]
  refine ⟨?_, ?_, ?_⟩
  · rw [show lerp 220 20 (1 : ℚ) = 20 by norm_num [lerp]]
    exact jround_eq _ _ (by norm_num) (by norm_num)
  · rw [show lerp 40 210 (1 : ℚ) = 210 by norm_num [lerp]]
    exact jround_eq _ _ (by norm_num) (by norm_num)
  · rw [show lerp 40 120 (1 : ℚ) = 120 by norm_num [lerp]]
    exact jround_eq _ _ (by norm_num) (by norm_num)

/-- C6: `scoreToColor` clamps to [0,1], linearly interpolates each channel
between the anchors (220,40,40) and (20,210,120) with rounding, hits the
anchors exactly at 0 and 1, and is antitone in red and monotone in green
and blue on [0,1]. -/
theorem scoreToColor_spec (s1 s2 : ℚ) (h0 : 0 ≤ s1) (h12 : s1 < s2) (h1 : s2 ≤ 1) :
    scoreToColor 0 = ⟨220, 40, 40⟩ ∧ scoreToColor 1 = ⟨20, 210, 120⟩ ∧
    (scoreToColor s2).r ≤ (scoreToColor s1).r ∧
    (scoreToColor s1).g ≤ (scoreToColor s2).g ∧
    (scoreToColor s1).b ≤ (scoreToColor s2).b ∧
    ∀ s, scoreToColor s =
      ⟨jround (lerp 220 20 (max 0 (min 1 s))),
       jround (lerp 40 210 (max 0 (min 1 s))),
       jround (lerp 40 120 (max 0 (min 1 s)))⟩ := by
  have e1 : max 0 (min 1 s1) = s1 := by
    rw [min_eq_right (by linarith), max_eq_right h0]
  have e2 : max 0 (min 1 s2) = s2 := by
    rw [min_eq_right h1, max_eq_right (by linarith)]
  refine ⟨scoreToColor_anchor0, scoreToColor_anchor1, ?_, ?_, ?_, fun s => rfl⟩
  · rw [scoreToColor_r, scoreToColor_r, e1, e2]
    exact jround_mono (by simp only [lerp]; linarith)
  · rw [scoreToColor_g, scoreToColor_g, e1, e2]
    exact jround_mono (by simp only [lerp]; linarith)
  · rw [scoreToColor_b, scoreToColor_b, e1, e2]
    exact jround_mono (by simp only [lerp]; linarith)

/-- Witness for C6 at the concrete scores 0 and 1. -/
theorem scoreToColor_spec_witness :
    scoreToColor 0 = ⟨220, 40, 40⟩ ∧ scoreToColor 1 = ⟨20, 210, 120⟩ ∧
    (scoreToColor 1).r ≤ (scoreToColor 0).r ∧
    (scoreToColor 0).g ≤ (scoreToColor 1).g ∧
    (scoreToColor 0).b ≤ (scoreToColor 1).b ∧
    ∀ s, scoreToColor s =
      ⟨jround (lerp 220 20 (max 0 (min 1 s))),
       jround (lerp 40 210 (max 0 (min 1 s))),
       jround (lerp 40 120 (max 0 (min 1 s)))⟩ :=
  scoreToColor_spec 0 1 le_rfl (by norm_num) le_rfl

theorem measureLineWidth_foldl (adv : Char → ℚ) (scale ls : ℚ) :
    ∀ (l : List Char) (a : ℚ),
      l.foldl (fun w ch => w + (adv ch * scale + ls)) a =
        a + (l.map fun ch => adv ch * scale + ls).sum := by
  intro l
  induction l with
  | nil => intro a; simp
  | cons c t ih =>
    intro a
    simp only [List.foldl_cons, List.map_cons, List.sum_cons, ih]
    ring

/-- Concrete metrics provider with advances A=600 and B=500 font units. -/
def advAB : Char → ℚ := fun ch => if ch = 'A' then 600 else if ch = 'B' then 500 else 0

/-- C7: `measureLineWidth` is the sum over every character of
`advanceWidth * scale + letterSpacing`, spacing included for the last
character too; with advances A=600, B=500, scale = 100/1000 and
letter spacing 2 it measures "AB" as 114. -/
theorem measureLineWidth_spec (str : List Char) (adv : Char → ℚ) (scale ls : ℚ) :
    measureLineWidth str adv scale ls = (str.map fun ch => adv ch * scale + ls).sum ∧
    measureLineWidth ['A', 'B'] advAB (100 / 1000) 2 = 114 := by
  constructor
  · unfold measureLineWidth
    rw [measureLineWidth_foldl]
    ring
  · simp only [measureLineWidth, List.foldl_cons, List.foldl_nil, advAB]
    rw [if_neg (show ¬ ('B' = 'A') by decide)]
    norm_num

/-- Witness for C7 at the concrete line "AB". -/
theorem measureLineWidth_spec_witness :
    measureLineWidth ['A', 'B'] advAB (100 / 1000) 2 =
      (['A', 'B'].map fun ch => advAB ch * (100 / 1000) + 2).sum ∧
    measureLineWidth ['A', 'B'] advAB (100 / 1000) 2 = 114 :=
  measureLineWidth_spec ['A', 'B'] advAB (100 / 1000) 2

/-- C8: `distortPath` is the identity whenever the level is non-positive,
and likewise whenever `Math.round(level * MAX_EXTRA_POINTS)` is
non-positive. -/
theorem distortPath_noop (cmds : List PathCmd) (level : ℚ) (rs : ℕ → ℚ)
    (h : level ≤ 0 ∨ jround (level * (MAX_EXTRA_POINTS : ℚ)) ≤ 0) :
    distortPath cmds level rs = cmds := by
  unfold distortPath distortPathK
  rcases h with h | h
  · simp [h]
  · by_cases hl : level ≤ 0
    · simp [hl]
    · simp [hl, h]

/-- Witness for C8 at level 0 and at level 1/100 (where the rounded
extra-point count is 0). -/
theorem distortPath_noop_witness :
    distortPath [PathCmd.M 1 2, PathCmd.L 3 4] (1 / 100) (fun _ => 0) =
      [PathCmd.M 1 2, PathCmd.L 3 4] :=
  distortPath_noop _ _ _ (Or.inr (by
    rw [jround_eq ((1 : ℚ) / 100 * (MAX_EXTRA_POINTS : ℕ)) 0
      (by norm_num [MAX_EXTRA_POINTS]) (by norm_num [MAX_EXTRA_POINTS])]))

/-- Output shape of the distortion walk: before every original `L`/`Q`/`C`
command exactly `n` synthesized `L` commands are inserted, `M`/`Z`
commands pass through bare, and every original command appears in order
with its coordinates unchanged. -/
inductive InsertShape (n : ℕ) : List PathCmd → List PathCmd → Prop where
  | nil : InsertShape n [] []
  | move (x y : ℚ) (rest out : List PathCmd) :
      InsertShape n rest out →
      InsertShape n (PathCmd.M x y :: rest) (PathCmd.M x y :: out)
  | close (rest out : List PathCmd) :
      InsertShape n rest out →
      InsertShape n (PathCmd.Z :: rest) (PathCmd.Z :: out)
  | line (x y : ℚ) (ins rest out : List PathCmd) :
      ins.length = n → (∀ c ∈ ins, ∃ a b, c = PathCmd.L a b) →
      InsertShape n rest out →
      InsertShape n (PathCmd.L x y :: rest) (ins ++ PathCmd.L x y :: out)
  | quad (x1 y1 x y : ℚ) (ins rest out : List PathCmd) :
      ins.length = n → (∀ c ∈ ins, ∃ a b, c = PathCmd.L a b) →
      InsertShape n rest out →
      InsertShape n (PathCmd.Q x1 y1 x y :: rest) (ins ++ PathCmd.Q x1 y1 x y :: out)
  | cubic (x1 y1 x2 y2 x y : ℚ) (ins rest out : List PathCmd) :
      ins.length = n → (∀ c ∈ ins, ∃ a b, c = PathCmd.L a b) →
      InsertShape n rest out →
      InsertShape n (PathCmd.C x1 y1 x2 y2 x y :: rest) (ins ++ PathCmd.C x1 y1 x2 y2 x y :: out)

theorem subdivide_length (level px py tx ty jscale : ℚ) (ep : ℕ) (rs : ℕ → ℚ) (k : ℕ) :
    (subdivide level px py tx ty jscale ep rs k).length = ep := by
  simp [subdivide]

theorem subdivide_allL (level px py tx ty jscale : ℚ) (ep : ℕ) (rs : ℕ → ℚ) (k : ℕ) :
    ∀ c ∈ subdivide level px py tx ty jscale ep rs k, ∃ a b, c = PathCmd.L a b := by
  intro c hc
  simp only [subdivide, List.mem_map] at hc
  obtain ⟨i, _, rfl⟩ := hc
  exact ⟨_, _, rfl⟩

theorem insertShape_distortGo (level : ℚ) (ep : ℕ) (rs : ℕ → ℚ) :
    ∀ (cmds : List PathCmd) (px py : ℚ) (k : ℕ),
      InsertShape ep cmds (distortGo level ep rs cmds px py k).1 := by
  intro cmds
  induction cmds with
  | nil => intro px py k; exact InsertShape.nil
  | cons cmd rest ih =>
    intro px py k
    cases cmd with
    | M x y => exact InsertShape.move x y _ _ (ih x y k)
    | L x y =>
      exact InsertShape.line x y _ _ _
        (subdivide_length level px py x y 6 ep rs k)
        (subdivide_allL level px py x y 6 ep rs k)
        (ih x y (k + 2 * ep))
    | Q x1 y1 x y =>
      exact InsertShape.quad x1 y1 x y _ _ _
        (subdivide_length level px py x y 10 ep rs k)
        (subdivide_allL level px py x y 10 ep rs k)
        (ih x y (k + 2 * ep))
    | C x1 y1 x2 y2 x y =>
      exact InsertShape.cubic x1 y1 x2 y2 x y _ _ _
        (subdivide_length level px py x y 10 ep rs k)
        (subdivide_allL level px py x y 10 ep rs k)
        (ih x y (k + 2 * ep))
    | Z => exact InsertShape.close _ _ (ih px py k)

/-- C1: at level 1 with `MAX_EXTRA_POINTS = 10`, `distortPath` inserts
exactly 10 synthesized `LineTo` commands immediately before every original
`L`/`Q`/`C` command, none before `M`/`Z`, and every original command
appears in order with its target coordinates unchanged. -/
theorem distortPath_insert_shape (cmds : List PathCmd) (rs : ℕ → ℚ) :
    InsertShape 10 cmds (distortPath cmds 1 rs) := by
  have hep : jround ((1 : ℚ) * (MAX_EXTRA_POINTS : ℕ)) = 10 :=
    jround_eq _ _ (by norm_num [MAX_EXTRA_POINTS]) (by norm_num [MAX_EXTRA_POINTS])
  have h : distortPath cmds 1 rs = (distortGo 1 10 rs cmds 0 0 0).1 := by
    simp only [distortPath, distortPathK, hep]
    rw [if_neg (show ¬ ((1 : ℚ) ≤ 0) by norm_num), if_neg (show ¬ ((10 : ℤ) ≤ 0) by norm_num)]
    rfl
  rw [h]
  exact insertShape_distortGo 1 10 rs cmds 0 0 0

/-- Witness for C1 at a concrete two-command path containing a `LineTo`. -/
theorem distortPath_insert_shape_witness :
    InsertShape 10 [PathCmd.M 5 6, PathCmd.L 7 8]
      (distortPath [PathCmd.M 5 6, PathCmd.L 7 8] 1 (fun _ => 0)) :=
  distortPath_insert_shape [PathCmd.M 5 6, PathCmd.L 7 8] (fun _ => 0)

theorem distortGo_counter (level : ℚ) (ep : ℕ) (rs : ℕ → ℚ) :
    ∀ (cmds : List PathCmd) (px py : ℚ) (k : ℕ),
      (distortGo level ep rs cmds px py k).2 = k + 2 * ep * countLQC cmds := by
  intro cmds
  induction cmds with
  | nil => intro px py k; simp [distortGo, countLQC]
  | cons cmd rest ih =>
    intro px py k
    cases cmd with
    | M x y =>
      simp only [distortGo, countLQC]
      rw [ih]
    | L x y =>
      simp only [distortGo, countLQC]
      rw [ih]
      ring
    | Q x1 y1 x y =>
      simp only [distortGo, countLQC]
      rw [ih]
      ring
    | C x1 y1 x2 y2 x y =>
      simp only [distortGo, countLQC]
      rw [ih]
      ring
    | Z =>
      simp only [distortGo, countLQC]
      rw [ih]

theorem subdivide_congr (level px py tx ty jscale : ℚ) (ep : ℕ) (rs1 rs2 : ℕ → ℚ) (k : ℕ)
    (h : ∀ n, n < k + 2 * ep → rs1 n = rs2 n) :
    subdivide level px py tx ty jscale ep rs1 k = subdivide level px py tx ty jscale ep rs2 k := by
  unfold subdivide
  apply List.map_congr_left
  intro i hi
  rw [List.mem_range] at hi
  rw [h (k + 2 * i) (by omega), h (k + 2 * i + 1) (by omega)]

theorem distortGo_congr (level : ℚ) (ep : ℕ) (rs1 rs2 : ℕ → ℚ) :
    ∀ (cmds : List PathCmd) (px py : ℚ) (k : ℕ),
      (∀ n, n < k + 2 * ep * countLQC cmds → rs1 n = rs2 n) →
      distortGo level ep rs1 cmds px py k = distortGo level ep rs2 cmds px py k := by
  intro cmds
  induction cmds with
  | nil => intro px py k h; rfl
  | cons cmd rest ih =>
    intro px py k h
    have heq : ∀ c : ℕ, k + 2 * ep * (c + 1) = (k + 2 * ep) + 2 * ep * c := by
      intro c; ring
    cases cmd with
    | M x y =>
      simp only [distortGo]
      rw [ih x y k (fun n hn => h n hn)]
    | L x y =>
      simp only [distortGo]
      rw [subdivide_congr level px py x y 6 ep rs1 rs2 k
          (fun n hn => h n (by
            show n < k + 2 * ep * (countLQC rest + 1)
            rw [heq]
            exact Nat.lt_of_lt_of_le hn (Nat.le_add_right _ _))),
        ih x y (k + 2 * ep) (fun n hn => h n (by
          show n < k + 2 * ep * (countLQC rest + 1)
          rw [heq]
          exact hn))]
    | Q x1 y1 x y =>
      simp only [distortGo]
      rw [subdivide_congr level px py x y 10 ep rs1 rs2 k
          (fun n hn => h n (by
            show n < k + 2 * ep * (countLQC rest + 1)
            rw [heq]
            exact Nat.lt_of_lt_of_le hn (Nat.le_add_right _ _))),
        ih x y (k + 2 * ep) (fun n hn => h n (by
          show n < k + 2 * ep * (countLQC rest + 1)
          rw [heq]
          exact hn))]
    | C x1 y1 x2 y2 x y =>
      simp only [distortGo]
      rw [subdivide_congr level px py x y 10 ep rs1 rs2 k
          (fun n hn => h n (by
            show n < k + 2 * ep * (countLQC rest + 1)
            rw [heq]
            exact Nat.lt_of_lt_of_le hn (Nat.le_add_right _ _))),
        ih x y (k + 2 * ep) (fun n hn => h n (by
          show n < k + 2 * ep * (countLQC rest + 1)
          rw [heq]
          exact hn))]
    | Z =>
      simp only [distortGo]
      rw [ih px py k (fun n hn => h n hn)]

/-- C3 (amended): the walk consumes exactly `2 * extraPoints` stream values
per subdivided `L`/`Q`/`C` segment, and the output depends only on the
consumed prefix, so two runs on the same path, level, and random value
sequence, started at the same stream cursor, produce identical output. -/
theorem distortPath_entropy (cmds : List PathCmd) (level : ℚ) (rs1 rs2 : ℕ → ℚ)
    (h : ∀ n, n < 2 * extraPointsOf level * countLQC cmds → rs1 n = rs2 n) :
    (distortGo level (extraPointsOf level) rs1 cmds 0 0 0).2 =
      2 * extraPointsOf level * countLQC cmds ∧
    distortPath cmds level rs1 = distortPath cmds level rs2 := by
  constructor
  · rw [distortGo_counter]
    exact Nat.zero_add _
  · by_cases hl : level ≤ 0
    · simp [distortPath, distortPathK, hl]
    · by_cases he : jround (level * (MAX_EXTRA_POINTS : ℚ)) ≤ 0
      · simp [distortPath, distortPathK, hl, he]
      · simp only [distortPath, distortPathK, if_neg hl, if_neg he]
        exact congrArg Prod.fst
          (distortGo_congr level (extraPointsOf level) rs1 rs2 cmds 0 0 0
            (fun n hn => h n (by simpa using hn)))

/-- Witness for C3 on a concrete two-command path with identical streams. -/
theorem distortPath_entropy_witness :
    (distortGo 1 (extraPointsOf 1) (fun _ => (0 : ℚ)) [PathCmd.M 0 0, PathCmd.L 1 1] 0 0 0).2 =
      2 * extraPointsOf 1 * countLQC [PathCmd.M 0 0, PathCmd.L 1 1] ∧
    distortPath [PathCmd.M 0 0, PathCmd.L 1 1] 1 (fun _ => (0 : ℚ)) =
      distortPath [PathCmd.M 0 0, PathCmd.L 1 1] 1 (fun _ => (0 : ℚ)) :=
  distortPath_entropy _ _ _ _ (fun _ _ => rfl)

/-- The single ambient generator stream: its first two draws are 0, every
later draw is 1/2. -/
def ambientStream : ℕ → ℚ := fun n => if n < 2 then 0 else 1 / 2

/-- C3 counterexample: the source draws from the ambient global
`Math.random()` whose cursor persists across calls, so two successive runs
of `distortPath` on the same path, the same level and the same underlying
random value sequence (cursor at 0 for the first call, at 2 for the
second) produce different outputs. -/
theorem distortPath_ambient_counterexample :
    (distortPathK [PathCmd.M 0 0, PathCmd.L 1 0] (1 / 10) ambientStream 0).1 ≠
      (distortPathK [PathCmd.M 0 0, PathCmd.L 1 0] (1 / 10) ambientStream 2).1 := by
  have hep : jround ((1 : ℚ) / 10 * (MAX_EXTRA_POINTS : ℕ)) = 1 :=
    jround_eq _ _ (by norm_num [MAX_EXTRA_POINTS]) (by norm_num [MAX_EXTRA_POINTS])
  have h0 : (distortPathK [PathCmd.M 0 0, PathCmd.L 1 0] (1 / 10) ambientStream 0).1 =
      [PathCmd.M 0 0, PathCmd.L (1 / 5) (-(3 / 10)), PathCmd.L 1 0] := by
    simp only [distortPathK, hep]
    rw [if_neg (show ¬ ((1 : ℚ) / 10 ≤ 0) by norm_num),
      if_neg (show ¬ ((1 : ℤ) ≤ 0) by norm_num)]
    show (distortGo (1 / 10) 1 ambientStream [PathCmd.M 0 0, PathCmd.L 1 0] 0 0 0).1 = _
    simp only [distortGo, subdivide, List.range_succ, List.range_zero, List.nil_append, List.map_cons, List.map_nil,
      jitterOf, ambientStream]
    norm_num
  have h2 : (distortPathK [PathCmd.M 0 0, PathCmd.L 1 0] (1 / 10) ambientStream 2).1 =
      [PathCmd.M 0 0, PathCmd.L (1 / 2) 0, PathCmd.L 1 0] := by
    simp only [distortPathK, hep]
    rw [if_neg (show ¬ ((1 : ℚ) / 10 ≤ 0) by norm_num),
      if_neg (show ¬ ((1 : ℤ) ≤ 0) by norm_num)]
    show (distortGo (1 / 10) 1 ambientStream [PathCmd.M 0 0, PathCmd.L 1 0] 0 0 2).1 = _
    simp only [distortGo, subdivide, List.range_succ, List.range_zero, List.nil_append, List.map_cons, List.map_nil,
      jitterOf, ambientStream]
    norm_num
  rw [h0, h2]
  simp only [ne_eq, List.cons.injEq, PathCmd.L.injEq]
  norm_num

theorem jitterOf_bound (level jscale r : ℚ) (hlev : 0 ≤ level) (hs : 0 ≤ jscale)
    (h0 : 0 ≤ r) (h1 : r < 1) : |jitterOf level jscale r| ≤ level * (jscale / 2) := by
  unfold jitterOf
  rw [abs_mul, abs_of_nonneg (mul_nonneg hlev hs)]
  have ha : |r - 1 / 2| ≤ 1 / 2 := abs_le.mpr (by constructor <;> linarith)
  calc |r - 1 / 2| * (level * jscale) ≤ 1 / 2 * (level * jscale) :=
        mul_le_mul_of_nonneg_right ha (mul_nonneg hlev hs)
    _ = level * (jscale / 2) := by ring

/-- C4: every synthesized interior point sits at the linear interpolation
of the segment at `t = (i+1)/(extraPoints+1)` plus a jitter pair bounded
by `level*3` per axis for line subdivisions and by `level*5` per axis for
curve subdivisions, for every stream draw in [0,1). -/
theorem distortPath_jitter_bound (level px py tx ty : ℚ) (ep k i : ℕ) (rs : ℕ → ℚ)
    (hlev : 0 ≤ level) (hrs : ∀ n, 0 ≤ rs n ∧ rs n < 1) (hi : i < ep) :
    (∃ jx jy,
      (subdivide level px py tx ty 6 ep rs k)[i]? =
        some (PathCmd.L (px + (tx - px) * (((i : ℚ) + 1) / ((ep : ℚ) + 1)) + jx)
          (py + (ty - py) * (((i : ℚ) + 1) / ((ep : ℚ) + 1)) + jy)) ∧
      |jx| ≤ level * 3 ∧ |jy| ≤ level * 3) ∧
    (∃ jx jy,
      (subdivide level px py tx ty 10 ep rs k)[i]? =
        some (PathCmd.L (px + (tx - px) * (((i : ℚ) + 1) / ((ep : ℚ) + 1)) + jx)
          (py + (ty - py) * (((i : ℚ) + 1) / ((ep : ℚ) + 1)) + jy)) ∧
      |jx| ≤ level * 5 ∧ |jy| ≤ level * 5) := by
  constructor
  · refine ⟨jitterOf level 6 (rs (k + 2 * i)), jitterOf level 6 (rs (k + 2 * i + 1)), ?_, ?_, ?_⟩
    · simp only [subdivide, List.getElem?_map, List.getElem?_range hi, Option.map_some']
    · have := jitterOf_bound level 6 (rs (k + 2 * i)) hlev (by norm_num)
        (hrs (k + 2 * i)).1 (hrs (k + 2 * i)).2
      calc |jitterOf level 6 (rs (k + 2 * i))| ≤ level * (6 / 2) := this
        _ = level * 3 := by norm_num
    · have := jitterOf_bound level 6 (rs (k + 2 * i + 1)) hlev (by norm_num)
        (hrs (k + 2 * i + 1)).1 (hrs (k + 2 * i + 1)).2
      calc |jitterOf level 6 (rs (k + 2 * i + 1))| ≤ level * (6 / 2) := this
        _ = level * 3 := by norm_num
  · refine ⟨jitterOf level 10 (rs (k + 2 * i)), jitterOf level 10 (rs (k + 2 * i + 1)), ?_, ?_, ?_⟩
    · simp only [subdivide, List.getElem?_map, List.getElem?_range hi, Option.map_some']
    · have := jitterOf_bound level 10 (rs (k + 2 * i)) hlev (by norm_num)
        (hrs (k + 2 * i)).1 (hrs (k + 2 * i)).2
      calc |jitterOf level 10 (rs (k + 2 * i))| ≤ level * (10 / 2) := this
        _ = level * 5 := by norm_num
    · have := jitterOf_bound level 10 (rs (k + 2 * i + 1)) hlev (by norm_num)
        (hrs (k + 2 * i + 1)).1 (hrs (k + 2 * i + 1)).2
      calc |jitterOf level 10 (rs (k + 2 * i + 1))| ≤ level * (10 / 2) := this
        _ = level * 5 := by norm_num

/-- Witness for C4 at level 1, a unit horizontal segment, one extra point
and the all-zero stream. -/
theorem distortPath_jitter_bound_witness :
    (∃ jx jy,
      (subdivide 1 0 0 1 0 6 1 (fun _ => (0 : ℚ)) 0)[0]? =
        some (PathCmd.L (0 + (1 - 0) * ((((0 : ℕ) : ℚ) + 1) / (((1 : ℕ) : ℚ) + 1)) + jx)
          (0 + (0 - 0) * ((((0 : ℕ) : ℚ) + 1) / (((1 : ℕ) : ℚ) + 1)) + jy)) ∧
      |jx| ≤ 1 * 3 ∧ |jy| ≤ 1 * 3) ∧
    (∃ jx jy,
      (subdivide 1 0 0 1 0 10 1 (fun _ => (0 : ℚ)) 0)[0]? =
        some (PathCmd.L (0 + (1 - 0) * ((((0 : ℕ) : ℚ) + 1) / (((1 : ℕ) : ℚ) + 1)) + jx)
          (0 + (0 - 0) * ((((0 : ℕ) : ℚ) + 1) / (((1 : ℕ) : ℚ) + 1)) + jy)) ∧
      |jx| ≤ 1 * 5 ∧ |jy| ≤ 1 * 5) :=
  distortPath_jitter_bound 1 0 0 1 0 1 0 0 (fun _ => (0 : ℚ)) (by norm_num)
    (fun n => by norm_num) (by norm_num)

theorem layoutLoop_nil (mw : ℚ) (adv : Char → ℚ) (scale ls : ℚ) (cur : List Char)
    (h : cur ≠ []) : layoutLoop mw adv scale ls [] cur = [cur] := by
  simp [layoutLoop, h]

theorem layoutLoop_cons_empty (mw : ℚ) (adv : Char → ℚ) (scale ls : ℚ)
    (word : List Char) (rest : List (List Char)) :
    layoutLoop mw adv scale ls (word :: rest) [] = layoutLoop mw adv scale ls rest word := by
  simp [layoutLoop]

theorem layoutLoop_cons_fit (mw : ℚ) (adv : Char → ℚ) (scale ls : ℚ)
    (word : List Char) (rest : List (List Char)) (cur : List Char) (hcur : cur ≠ [])
    (hfit : ¬ mw < measureLineWidth (cur ++ ' ' :: word) adv scale ls) :
    layoutLoop mw adv scale ls (word :: rest) cur =
      layoutLoop mw adv scale ls rest (cur ++ ' ' :: word) := by
  simp [layoutLoop, hcur, hfit]

theorem layoutLoop_cons_over (mw : ℚ) (adv : Char → ℚ) (scale ls : ℚ)
    (word : List Char) (rest : List (List Char)) (cur : List Char) (hcur : cur ≠ [])
    (hover : mw < measureLineWidth (cur ++ ' ' :: word) adv scale ls) :
    layoutLoop mw adv scale ls (word :: rest) cur =
      cur :: layoutLoop mw adv scale ls rest word := by
  simp [layoutLoop, hcur, hover]

/-- C2: the wrap commits only on strict overflow with a non-empty current
line: two words whose joined width equals `maxWidth` stay on one line, a
joined width of `maxWidth + 1` forces a two-line split preserving order
and content, and a single word wider than `maxWidth` is placed alone on
its own line. -/
theorem layoutTextIntoLines_spec (ta tb tc w1 w2 u1 u2 w : List Char) (mwa mwb mwc : ℚ)
    (adv : Char → ℚ) (scale ls : ℚ)
    (hsa : splitWS ta = [w1, w2]) (hw1 : w1 ≠ []) (hw2 : w2 ≠ [])
    (hma : measureLineWidth (w1 ++ ' ' :: w2) adv scale ls = mwa)
    (hsb : splitWS tb = [u1, u2]) (hu1 : u1 ≠ []) (hu2 : u2 ≠ [])
    (hmb : measureLineWidth (u1 ++ ' ' :: u2) adv scale ls = mwb + 1)
    (hsc : splitWS tc = [w]) (hw : w ≠ [])
    (hmc : mwc < measureLineWidth w adv scale ls) :
    layoutTextIntoLines ta mwa adv scale ls = [w1 ++ ' ' :: w2] ∧
    layoutTextIntoLines tb mwb adv scale ls = [u1, u2] ∧
    layoutTextIntoLines tc mwc adv scale ls = [w] := by
  refine ⟨?_, ?_, ?_⟩
  · unfold layoutTextIntoLines
    rw [hsa, layoutLoop_cons_empty,
      layoutLoop_cons_fit mwa adv scale ls w2 [] w1 hw1 (by rw [hma]; exact lt_irrefl mwa),
      layoutLoop_nil mwa adv scale ls _ (fun hcon => hw1 (List.append_eq_nil.mp hcon).1)]
  · unfold layoutTextIntoLines
    rw [hsb, layoutLoop_cons_empty,
      layoutLoop_cons_over mwb adv scale ls u2 [] u1 hu1 (by rw [hmb]; linarith),
      layoutLoop_nil mwb adv scale ls u2 hu2]
  · unfold layoutTextIntoLines
    rw [hsc, layoutLoop_cons_empty, layoutLoop_nil mwc adv scale ls w hw]

/-- Witness for C2 with unit advances: "a b" at widths 3, 2 and "ab" at
width 1. -/
theorem layoutTextIntoLines_spec_witness :
    layoutTextIntoLines ['a', ' ', 'b'] 3 (fun _ => (1 : ℚ)) 1 0 = [['a'] ++ ' ' :: ['b']] ∧
    layoutTextIntoLines ['a', ' ', 'b'] 2 (fun _ => (1 : ℚ)) 1 0 = [['a'], ['b']] ∧
    layoutTextIntoLines ['a', 'b'] 1 (fun _ => (1 : ℚ)) 1 0 = [['a', 'b']] :=
  layoutTextIntoLines_spec ['a', ' ', 'b'] ['a', ' ', 'b'] ['a', 'b']
    ['a'] ['b'] ['a'] ['b'] ['a', 'b'] 3 2 1 (fun _ => (1 : ℚ)) 1 0
    (by decide) (by decide) (by decide)
    (by norm_num [measureLineWidth])
    (by decide) (by decide) (by decide)
    (by norm_num [measureLineWidth])
    (by decide) (by decide)
    (by norm_num [measureLineWidth])

theorem foldl_bestStep_const (year : ℤ) :
    ∀ (l : List Entry) (b : Entry), (∀ d ∈ l, ¬ d.year ≤ year) →
      l.foldl (bestStep year) b = b := by
  intro l
  induction l with
  | nil => intro b _; rfl
  | cons d rest ih =>
    intro b h
    simp only [List.foldl_cons]
    rw [show bestStep year b d = b by
        unfold bestStep
        rw [if_neg (fun hcon => h d (List.mem_cons_self d rest) hcon.1)]]
    exact ih b (fun x hx => h x (List.mem_cons_of_mem _ hx))

theorem foldl_bestStep_max (year : ℤ) :
    ∀ (l : List Entry) (b : Entry), b.year ≤ year →
      (b :: l).Pairwise (fun p q => p.year < q.year) →
      l.foldl (bestStep year) b ∈ b :: l ∧
      (l.foldl (bestStep year) b).year ≤ year ∧
      ∀ d ∈ b :: l, d.year ≤ year → d.year ≤ (l.foldl (bestStep year) b).year := by
  intro l
  induction l with
  | nil =>
    intro b hb _
    refine ⟨List.mem_cons_self _ _, hb, ?_⟩
    intro d hd _
    rw [List.mem_singleton.mp hd]
    exact le_refl _
  | cons d rest ih =>
    intro b hb hpw
    rw [List.pairwise_cons] at hpw
    obtain ⟨hblt, hpw'⟩ := hpw
    simp only [List.foldl_cons]
    by_cases hd : d.year ≤ year
    · have hbd : bestStep year b d = d := by
        unfold bestStep
        rw [if_pos ⟨hd, le_of_lt (hblt d (List.mem_cons_self _ _))⟩]
      rw [hbd]
      obtain ⟨hmem, hy, hmax⟩ := ih d hd hpw'
      refine ⟨List.mem_cons_of_mem _ hmem, hy, ?_⟩
      intro e he hey
      rcases List.mem_cons.mp he with rfl | he'
      · exact le_trans (le_of_lt (hblt d (List.mem_cons_self _ _)))
          (hmax d (List.mem_cons_self _ _) hd)
      · exact hmax e he' hey
    · have hbd : bestStep year b d = b := by
        unfold bestStep
        rw [if_neg (fun hcon => hd hcon.1)]
      rw [hbd]
      have hrest : ∀ x ∈ rest, ¬ x.year ≤ year := by
        intro x hx
        rw [List.pairwise_cons] at hpw'
        have hdx := hpw'.1 x hx
        omega
      rw [foldl_bestStep_const year rest b hrest]
      refine ⟨List.mem_cons_self _ _, hb, ?_⟩
      intro e he hey
      rcases List.mem_cons.mp he with rfl | he'
      · exact le_refl _
      · rcases List.mem_cons.mp he' with rfl | he''
        · exact absurd hey hd
        · exact absurd hey (hrest e he'')

theorem find_exact_sorted (year : ℤ) :
    ∀ (arr : List Entry), arr.Pairwise (fun p q => p.year < q.year) →
      ∀ e ∈ arr, e.year = year →
      arr.find? (fun d => d.year == year) = some e := by
  intro arr
  induction arr with
  | nil => intro _ e he; exact absurd he (List.not_mem_nil e)
  | cons a rest ih =>
    intro hpw e he hey
    rw [List.pairwise_cons] at hpw
    by_cases ha : a.year = year
    · have hea : e = a := by
        rcases List.mem_cons.mp he with rfl | he'
        · rfl
        · have := hpw.1 e he'
          omega
      rw [hea]
      exact List.find?_cons_of_pos _ (by simpa using ha)
    · have he' : e ∈ rest := by
        rcases List.mem_cons.mp he with rfl | h
        · exact absurd hey ha
        · exact h
      rw [List.find?_cons_of_neg _ (by simpa using ha)]
      exact ih hpw.2 e he' hey

theorem getCurrentScore_absent (data : List (String × List Entry)) (year : ℤ) :
    ∀ c : String, data.lookup c = none ∨ data.lookup c = some [] →
      getCurrentScore data c year = none := by
  intro c h
  rcases h with h | h <;> · unfold getCurrentScore; rw [h]

/-- C10: for a country with at least one (strictly year-sorted) data
entry, `getCurrentScore` always returns a score: the exact one when the
requested year is present, the one at the greatest recorded year ≤ the
requested year when some entry is at or below it, and the earliest
entry's score when every recorded year exceeds it; it returns `null` only
for an absent country or an empty entry list. -/
theorem getCurrentScore_spec (data : List (String × List Entry)) (country : String)
    (year : ℤ) (arr : List Entry)
    (hlook : data.lookup country = some arr) (hne : arr ≠ [])
    (hsort : arr.Pairwise (fun p q => p.year < q.year)) :
    (getCurrentScore data country year).isSome = true ∧
    (∀ e ∈ arr, e.year = year → getCurrentScore data country year = some e.score) ∧
    ((∀ d ∈ arr, year < d.year) →
      ∃ e, arr.head? = some e ∧ getCurrentScore data country year = some e.score) ∧
    ((∃ d ∈ arr, d.year ≤ year) →
      ∃ e ∈ arr, e.year ≤ year ∧ (∀ d ∈ arr, d.year ≤ year → d.year ≤ e.year) ∧
        getCurrentScore data country year = some e.score) ∧
    (∀ c : String, data.lookup c = none ∨ data.lookup c = some [] →
      getCurrentScore data c year = none) := by
  obtain ⟨a0, rest, rfl⟩ : ∃ a0 rest, arr = a0 :: rest := by
    cases arr with
    | nil => exact absurd rfl hne
    | cons a0 rest => exact ⟨a0, rest, rfl⟩
  have hg : getCurrentScore data country year =
      match (a0 :: rest).find? (fun d => d.year == year) with
      | some ex => some ex.score
      | none => some ((a0 :: rest).foldl (bestStep year) a0).score := by
    unfold getCurrentScore
    rw [hlook]
  cases hfind : (a0 :: rest).find? (fun d => d.year == year) with
  | some ex =>
    have hg2 : getCurrentScore data country year = some ex.score := by rw [hg, hfind]
    have hexy : ex.year = year := by simpa using List.find?_some hfind
    have hexmem : ex ∈ a0 :: rest := List.mem_of_find?_eq_some hfind
    refine ⟨by rw [hg2]; rfl, ?_, ?_, ?_, getCurrentScore_absent data year⟩
    · intro e he hey
      have hfe := find_exact_sorted year (a0 :: rest) hsort e he hey
      rw [hfind] at hfe
      rw [hg2, Option.some_inj.mp hfe]
    · intro hall
      have := hall ex hexmem
      omega
    · intro _
      exact ⟨ex, hexmem, le_of_eq hexy, fun d _ hdy => by rw [hexy]; exact hdy, hg2⟩
  | none =>
    have hg2 : getCurrentScore data country year =
        some ((a0 :: rest).foldl (bestStep year) a0).score := by rw [hg, hfind]
    have hstep : bestStep year a0 a0 = a0 := by
      unfold bestStep
      split <;> rfl
    have hfold : (a0 :: rest).foldl (bestStep year) a0 = rest.foldl (bestStep year) a0 := by
      rw [List.foldl_cons, hstep]
    refine ⟨by rw [hg2]; rfl, ?_, ?_, ?_, getCurrentScore_absent data year⟩
    · intro e he hey
      have hfe := find_exact_sorted year (a0 :: rest) hsort e he hey
      rw [hfind] at hfe
      exact Option.noConfusion hfe
    · intro hall
      have h1 : ∀ x ∈ rest, ¬ x.year ≤ year := by
        intro x hx
        have := hall x (List.mem_cons_of_mem _ hx)
        omega
      rw [hg2, hfold, foldl_bestStep_const year rest a0 h1]
      exact ⟨a0, rfl, rfl⟩
    · intro hex
      have ha0 : a0.year ≤ year := by
        obtain ⟨d, hd, hdy⟩ := hex
        rcases List.mem_cons.mp hd with rfl | hd'
        · exact hdy
        · have := (List.pairwise_cons.mp hsort).1 d hd'
          omega
      obtain ⟨hmem, hy, hmax⟩ := foldl_bestStep_max year rest a0 ha0 hsort
      rw [hg2, hfold]
      exact ⟨rest.foldl (bestStep year) a0, hmem, hy, hmax, rfl⟩

/-- Concrete country data for the C10 witness. -/
def c10Arr : List Entry := [⟨2000, 0⟩, ⟨2005, 1⟩]

/-- Concrete data table for the C10 witness. -/
def c10Data : List (String × List Entry) := [("A", c10Arr)]

/-- Witness for C10 on a two-entry country at an in-between year. -/
theorem getCurrentScore_spec_witness :
    (getCurrentScore c10Data "A" 2003).isSome = true ∧
    (∀ e ∈ c10Arr, e.year = 2003 → getCurrentScore c10Data "A" 2003 = some e.score) ∧
    ((∀ d ∈ c10Arr, 2003 < d.year) →
      ∃ e, c10Arr.head? = some e ∧ getCurrentScore c10Data "A" 2003 = some e.score) ∧
    ((∃ d ∈ c10Arr, d.year ≤ 2003) →
      ∃ e ∈ c10Arr, e.year ≤ 2003 ∧ (∀ d ∈ c10Arr, d.year ≤ 2003 → d.year ≤ e.year) ∧
        getCurrentScore c10Data "A" 2003 = some e.score) ∧
    (∀ c : String, c10Data.lookup c = none ∨ c10Data.lookup c = some [] →
      getCurrentScore c10Data c 2003 = none) :=
  getCurrentScore_spec c10Data "A" 2003 c10Arr (by decide) (by decide) (by decide)

/-- C9: with a country selected but the glyph metrics provider absent,
the orchestration completes and emits exactly one background-colour
instruction and one blur instruction whose amount is the distortion level
times `MAX_BLUR_PX`, and zero fill-outline instructions. -/
theorem drawOutput_no_font (inp : DrawInputs) (hf : inp.fontOpt = none)
    (hc : inp.country ≠ "") :
    drawOutput inp =
      [Instr.setBackground (scoreToColor
          (max 0 (min 1 ((getCurrentScore inp.data inp.country inp.year).getD (1 / 2))))),
        Instr.setBlur (scoreToDistortion
          (max 0 (min 1 ((getCurrentScore inp.data inp.country inp.year).getD (1 / 2)))) *
          MAX_BLUR_PX)] ∧
    (drawOutput inp).countP Instr.isSetBackground = 1 ∧
    (drawOutput inp).countP Instr.isSetBlur = 1 ∧
    (drawOutput inp).countP Instr.isFillOutline = 0 := by
  have h : drawOutput inp =
      [Instr.setBackground (scoreToColor
          (max 0 (min 1 ((getCurrentScore inp.data inp.country inp.year).getD (1 / 2))))),
        Instr.setBlur (scoreToDistortion
          (max 0 (min 1 ((getCurrentScore inp.data inp.country inp.year).getD (1 / 2)))) *
          MAX_BLUR_PX)] := by
    simp only [drawOutput, hf]
    rw [if_neg hc]
  refine ⟨h, ?_, ?_, ?_⟩ <;> rw [h] <;> rfl

/-- Concrete inputs with no font for the C9 witness. -/
def noFontInp : DrawInputs :=
  ⟨[], "X", 0, [], none, none, none, none, 0, 0, fun _ => 0⟩

/-- Witness for C9 at concrete inputs. -/
theorem drawOutput_no_font_witness :
    drawOutput noFontInp =
      [Instr.setBackground (scoreToColor
          (max 0 (min 1 ((getCurrentScore noFontInp.data noFontInp.country
            noFontInp.year).getD (1 / 2))))),
        Instr.setBlur (scoreToDistortion
          (max 0 (min 1 ((getCurrentScore noFontInp.data noFontInp.country
            noFontInp.year).getD (1 / 2)))) * MAX_BLUR_PX)] ∧
    (drawOutput noFontInp).countP Instr.isSetBackground = 1 ∧
    (drawOutput noFontInp).countP Instr.isSetBlur = 1 ∧
    (drawOutput noFontInp).countP Instr.isFillOutline = 0 :=
  drawOutput_no_font noFontInp rfl (by decide)

end Uncensortype
